import Mathlib

/-!
# Verification of the televideditor batch media-composition worker

Shallow embedding of `src/televideditor.py`: a single-file worker that pops
job descriptors from a Redis REST queue, composes a caption raster and a
media asset into a 1080x1920 video via an external ffmpeg invocation, submits
the result, cleans up its per-job files, and stops its own Railway deployment
when the queue is empty.

Python strings are modelled as `List Char`, floats appearing in the geometry
computations as `ℚ` (with explicit truncation where Python applies `int()`),
and the external world (network, subprocesses, filesystem) as explicit outcome
data threaded through the functions that the source calls.
-/

set_option autoImplicit false

namespace Televideditor

/-! ## Module-level configuration constants (televideditor.py lines 31-54) -/

def COMP_WIDTH : ℕ := 1080

def COMP_HEIGHT : ℕ := 1920

def BACKGROUND_COLOR : String := "black"

def FPS : ℕ := 30

def IMAGE_DURATION : ℕ := 12

def MEDIA_FADE_DURATION : ℕ := 3

def CAPTION_FADE_DURATION : ℕ := 11

def MEDIA_Y_OFFSET : ℤ := 0

def CAPTION_TOP_PADDING_LINES : ℕ := 0

def CAPTION_LINE_SPACING : ℕ := 5

def SHADOW_BLUR_RADIUS : ℕ := 20

def ENCODE_TIMEOUT_SECONDS : ℕ := 300

def FRAME_TIMEOUT_SECONDS : ℕ := 30

/-! ## Caption text wrapping (televideditor.py line 263)

The source evaluates
`[item for line in padded_text.split('\n')
      for item in textwrap.wrap(line, width=30, break_long_words=True) or ['']]`.

`textwrap.wrap` is CPython's greedy wrapper with its default options
(`expand_tabs=True`, `replace_whitespace=True`, `drop_whitespace=True`,
`break_long_words=True`).  We embed its core algorithm `_wrap_chunks`
faithfully: whitespace munging, splitting into alternating whitespace/word
chunks, greedy line filling, force-splitting of words longer than the width,
and dropping of leading (non-first-line) and trailing whitespace chunks.
Two simplifications, which do not affect the verified properties:
tab expansion is modelled as mapping each whitespace character to one space
(CPython may expand a tab to several spaces — still a whitespace chunk), and
`break_on_hyphens` break points are omitted (they only move where a too-long
chunk is split; every split still respects the width and loses no character).
-/

/-- The whitespace characters of CPython `string.whitespace` /
`textwrap._whitespace`. -/
def PY_WS : List Char := [' ', '\t', '\n', '\x0b', '\x0c', '\r']

/-- `textwrap._munge_whitespace`: every whitespace character becomes a space. -/
def munge_whitespace (s : List Char) : List Char :=
  s.map fun c => if c ∈ PY_WS then ' ' else c

/-- A character survives wrapping iff it is not whitespace. -/
def keepChar (c : Char) : Bool := decide (c ∉ PY_WS)

/-- A chunk is a droppable whitespace chunk iff `chunk.strip() == ''`. -/
def isSpaceChunk (c : List Char) : Bool := c.all fun d => d == ' '

/-- Split a munged line into maximal runs of spaces / non-spaces
(`textwrap._split`, without the extra hyphen break points). -/
def chunksOf : List Char → List (List Char)
  | [] => []
  | c :: rest =>
    match chunksOf rest with
    | [] => [[c]]
    | chunk :: chunks =>
      match chunk with
      | [] => [[c]]
      | d :: _ =>
        if (c == ' ') == (d == ' ') then (c :: chunk) :: chunks
        else [c] :: chunk :: chunks

/-- Total character count of a chunk list. -/
def sumLen (l : List (List Char)) : ℕ := (l.map List.length).sum

/-- Termination measure for the outer wrapping loop. -/
def chunksMeasure (l : List (List Char)) : ℕ := sumLen l + l.length

/-- `_wrap_chunks`, start of an outer iteration: if this is not the first
output line and the next chunk is whitespace, drop it. -/
def dropLeading (linesNE : Bool) : List (List Char) → List (List Char)
  | [] => []
  | c :: rest => if linesNE && isSpaceChunk c then rest else c :: rest

/-- `_wrap_chunks`, inner greedy loop: take chunks as long as they fit in
`width` given `curLen` characters already on the line; return
(chunks taken, chunks remaining). -/
def takeFit (width : ℕ) (curLen : ℕ) : List (List Char) → List (List Char) × List (List Char)
  | [] => ([], [])
  | c :: rest =>
    if curLen + c.length ≤ width then
      let p := takeFit width (curLen + c.length) rest
      (c :: p.1, p.2)
    else ([], c :: rest)

/-- `_handle_long_word` with `break_long_words=True`: if the next chunk is
longer than the whole width, split it at the space left on the current line. -/
def handleLong (width : ℕ) (cur : List (List Char)) :
    List (List Char) → List (List Char) × List (List Char)
  | [] => (cur, [])
  | c :: rest =>
    if width < c.length then
      let spaceLeft := if width < 1 then 1 else width - sumLen cur
      (cur ++ [c.take spaceLeft], c.drop spaceLeft :: rest)
    else (cur, c :: rest)

/-- `_wrap_chunks`, end of an outer iteration: drop a trailing whitespace
chunk from the current line. -/
def dropTrailingWs : List (List Char) → List (List Char)
  | [] => []
  | [c] => if isSpaceChunk c then [] else [c]
  | c :: c2 :: rest => c :: dropTrailingWs (c2 :: rest)

/-- One outer iteration of `_wrap_chunks`: returns the emitted line (if the
current line is nonempty after whitespace dropping) and the remaining chunks. -/
def wrapStep (width : ℕ) (linesNE : Bool) (chunks : List (List Char)) :
    Option (List Char) × List (List Char) :=
  let chunks1 := dropLeading linesNE chunks
  let p := takeFit width 0 chunks1
  let q := handleLong width p.1 p.2
  let cur := dropTrailingWs q.1
  (if cur.isEmpty then none else some cur.flatten, q.2)

/-- The outer loop of `_wrap_chunks`, with a fuel parameter that dominates the
decreasing measure `chunksMeasure` (each iteration on a nonempty chunk list
consumes at least one unit; `textwrap_wrap` supplies sufficient fuel). -/
def wrapGo (width : ℕ) : ℕ → Bool → List (List Char) → List (List Char)
  | _, _, [] => []
  | 0, _, _ => []
  | fuel + 1, linesNE, chunks =>
    let s := wrapStep width linesNE chunks
    match s.1 with
    | some l => l :: wrapGo width fuel true s.2
    | none => wrapGo width fuel linesNE s.2

/-- `textwrap.wrap(line, width=width, break_long_words=True)` on a single
newline-free line. -/
def textwrap_wrap (width : ℕ) (line : List Char) : List (List Char) :=
  let chunks := chunksOf (munge_whitespace line)
  wrapGo width (chunksMeasure chunks + 1) false chunks

/-- `str.split('\n')`. -/
def splitLines : List Char → List (List Char)
  | [] => [[]]
  | c :: rest =>
    if c = '\n' then [] :: splitLines rest
    else
      match splitLines rest with
      | [] => [[c]]
      | l :: ls => (c :: l) :: ls

/-- `textwrap.wrap(line, width=30, break_long_words=True) or ['']`. -/
def wrappedBlock (line : List Char) : List (List Char) :=
  match textwrap_wrap 30 line with
  | [] => [[]]
  | ls => ls

/-- `("\n" * CAPTION_TOP_PADDING_LINES) + text` (televideditor.py line 259). -/
def paddedText (text : List Char) : List Char :=
  List.replicate CAPTION_TOP_PADDING_LINES '\n' ++ text

/-- The wrapped caption lines `final_lines` (televideditor.py line 263). -/
def final_lines (text : List Char) : List (List Char) :=
  ((splitLines (paddedText text)).map wrappedBlock).flatten

/-! ## Caption raster geometry (`create_caption_image`, lines 254-327)

PIL's text measurement (`multiline_textbbox`) is an external font oracle; the
embedding takes it as a parameter mapping the wrapped text to a bounding box
of float coordinates.  Python's `int()` truncates toward zero. -/

/-- Python `int()` on a float/rational value: truncation toward zero. -/
def pyInt (q : ℚ) : ℤ := if q < 0 then -⌊-q⌋ else ⌊q⌋

/-- A PIL bounding box `(x0, y0, x1, y1)` as returned by `multiline_textbbox`. -/
structure BBox where
  x0 : ℚ
  y0 : ℚ
  x1 : ℚ
  y1 : ℚ

/-- `text_width = int(text_bbox[2] - text_bbox[0])` (line 269). -/
def text_width (b : BBox) : ℤ := pyInt (b.x1 - b.x0)

/-- `text_height = int(text_bbox[3] - text_bbox[1])` (line 270). -/
def text_height (b : BBox) : ℤ := pyInt (b.y1 - b.y0)

/-- `img_padding = SHADOW_BLUR_RADIUS * 4` (line 273). -/
def img_padding : ℤ := (SHADOW_BLUR_RADIUS : ℤ) * 4

/-- The dimensions of the caption raster produced by `create_caption_image`. -/
structure CaptionImage where
  width : ℤ
  height : ℤ

/-- `create_caption_image` (lines 254-327), restricted to the data the claims
are about: wrap the padded caption text, measure it with the font oracle
`measure`, and allocate the canvas with the blur margin (lines 273-275).
Returns the raster dimensions and the measured text height (the function's
second return value). -/
def create_caption_image (measure : List (List Char) → BBox) (text : List Char) :
    CaptionImage × ℤ :=
  let bbox := measure (final_lines text)
  let w := text_width bbox
  let h := text_height bbox
  ({ width := w + img_padding, height := h + img_padding }, h)

/-! ## Media geometry (`process_video_job`, lines 370-372) -/

/-- `scale_ratio = COMP_WIDTH / media_w` (line 370), a Python float division
modelled as an exact rational. -/
def scaleFactor (media_w : ℕ) : ℚ := (COMP_WIDTH : ℚ) / media_w

/-- `scaled_media_h = int(media_h * scale_ratio)` (line 371). -/
def scaled_media_h (media_w media_h : ℕ) : ℤ :=
  pyInt ((media_h : ℚ) * scaleFactor media_w)

/-- `media_y_pos = int((COMP_HEIGHT / 2 - scaled_media_h / 2) + MEDIA_Y_OFFSET)`
(line 372). -/
def media_y_pos (media_w media_h : ℕ) : ℤ :=
  pyInt (((COMP_HEIGHT : ℚ) / 2 - (scaled_media_h media_w media_h : ℚ) / 2)
    + (MEDIA_Y_OFFSET : ℚ))

/-! ## Composition filter graph (`process_video_job`, lines 374-432)

Each element of the Python `filter_parts` list is one filter-chain string;
the embedding represents each string by a constructor carrying exactly the
varying data (stream labels, durations, positions).  The `ffmpeg` input list
(lines 374-377) is embedded alongside. -/

/-- One entry of the `ffmpeg` input list. -/
inductive InputSpec where
  /-- `-f lavfi -i color=c={color}:s={w}x{h}:d={duration}` -/
  | colorSource (color : String) (w h : ℕ) (duration : ℚ)
  /-- `-i media_path` (preceded by `-loop 1 -t duration` for images) -/
  | mediaFile (looped : Option ℚ)
  /-- `-i caption_image_path` -/
  | captionFile
  deriving DecidableEq, Repr

/-- One entry of the Python `filter_parts` list (one filter-chain string). -/
inductive FilterPart where
  /-- `[1:v]scale={w}:-1,setpts=PTS-STARTPTS[out]`: uniform scale of the media
  stream to width `w`, height following from the aspect ratio. -/
  | scaleMediaKeepAspect (w : ℕ) (out : String)
  /-- `[a][b]overlay=(W-w)/2:{y}[out]`: overlay `b` onto `a`, horizontally
  centered, at vertical position `y`. -/
  | overlayAtY (a b : String) (y : ℤ) (out : String)
  /-- `color=c=black:s={w}x{h}:d={d},format=rgba,fade=t=out:st={st}:d={fd}[out]`:
  a full-canvas black layer fading out over `fd` seconds starting at `st`. -/
  | blackFadeOut (w h : ℕ) (d : ℚ) (st : ℚ) (fd : ℚ) (out : String)
  /-- `[a][b]overlay=0:0[out]`: overlay `b` onto `a` at the origin
  (full-canvas layer). -/
  | overlayFull (a b : String) (out : String)
  /-- `[a][b]overlay=(W-w)/2:(H-h)/2[out]`: overlay `b` onto `a`, centered on
  both axes (the caption placement). -/
  | overlayCentered (a b : String) (out : String)
  /-- Fade-in variant only: overlay a layer whose alpha ramps from 0 at the
  layer's own start over `fd` seconds. -/
  | overlayWithFadeIn (a b : String) (start fd : ℚ) (out : String)
  /-- Fade-in variant only: music track trimmed to `d` seconds with a trailing
  fade-out of `fadeLen` seconds. -/
  | musicTrimFadeOut (d fadeLen : ℚ)
  deriving DecidableEq, Repr

/-- Whether the job's media is an image or a video (`media_type`). -/
inductive MediaType where
  | image
  | video
  deriving DecidableEq, Repr

/-- The `ffmpeg` input list (lines 374-377): background color canvas at the
full output duration, then the media (looped for images), then the caption. -/
def ffmpeg_inputs (media_type : MediaType) (final_duration : ℚ) : List InputSpec :=
  [ .colorSource BACKGROUND_COLOR COMP_WIDTH COMP_HEIGHT final_duration,
    .mediaFile (match media_type with | .image => some final_duration | .video => none),
    .captionFile ]

/-- The `filter_parts` list (lines 379-414), exactly as the source builds it:
base scene first, then (with `apply_fade`) media fade layer, caption, caption
fade layer; without `apply_fade` just the caption. -/
def filter_parts (apply_fade : Bool) (final_duration : ℚ) (mediaY : ℤ) :
    List FilterPart :=
  let base : List FilterPart :=
    [ .scaleMediaKeepAspect COMP_WIDTH "scaled_media",
      .overlayAtY "0:v" "scaled_media" mediaY "base_scene" ]
  if apply_fade then
    base ++
    [ .blackFadeOut COMP_WIDTH COMP_HEIGHT final_duration 0 (MEDIA_FADE_DURATION : ℚ)
        "media_fade_layer",
      .overlayFull "base_scene" "media_fade_layer" "scene_after_media_fade",
      .overlayCentered "scene_after_media_fade" "2:v" "scene_with_text",
      .blackFadeOut COMP_WIDTH COMP_HEIGHT final_duration 0 (CAPTION_FADE_DURATION : ℚ)
        "caption_fade_layer",
      .overlayFull "scene_with_text" "caption_fade_layer" "final_v" ]
  else
    base ++ [ .overlayCentered "base_scene" "2:v" "final_v" ]

/-- The two documented fade-timeline variants (spec section 4.3). -/
inductive FadeVariant where
  | sequentialFadeOut
  | fadeIn
  deriving DecidableEq, Repr

/-- Modelled from the spec: the fade-in deployment variant's filter graph is
not under `src/` (the spec notes the repository's second, duplicated variant
file is excluded from the effective source).  Per spec section 4.3: caption
layer and media layer each carry their own fade-in transform (alpha ramps
from 0 at the layer's own start), composited directly onto the canvas in a
single pass; an independent music track is trimmed to the target duration and
given a fade-out near its end. -/
def fadeInFilterParts (final_duration : ℚ)
    (mediaFd captionFd musicFadeLen : ℚ) : List FilterPart :=
  [ .scaleMediaKeepAspect COMP_WIDTH "scaled_media",
    .overlayWithFadeIn "0:v" "scaled_media" 0 mediaFd "scene_with_media",
    .overlayWithFadeIn "scene_with_media" "2:v" 0 captionFd "final_v",
    .musicTrimFadeOut final_duration musicFadeLen ]

/-- Modelled from the spec: the deployment-variant selector (which of the two
worker files runs is a deployment-configuration choice, not code under
`src/`).  The sequential fade-out branch is the `filter_parts` logic of
`src/televideditor.py`; the fade-in branch is the spec-modelled variant. -/
def build_composition (v : FadeVariant) (apply_fade : Bool) (final_duration : ℚ)
    (mediaY : ℤ) (mediaFd captionFd musicFadeLen : ℚ) : List FilterPart :=
  match v with
  | .sequentialFadeOut => filter_parts apply_fade final_duration mediaY
  | .fadeIn => fadeInFilterParts final_duration mediaFd captionFd musicFadeLen

/-! ## Per-job files and cleanup (`cleanup_files`, lines 58-66)

The per-job temp files are partitioned by job id; within one job they are
distinguished by directory and name prefix (`downloads/{job}{ext}`,
`outputs/caption_{job}.png`, `outputs/output_{job}.mp4`,
`outputs/frame_{job}.jpg`), modelled as constructors. -/

/-- A file created while processing one job. -/
inductive JobFile where
  /-- `downloads/{job_id}{ext}` (line 223) -/
  | media (ext : String)
  /-- `outputs/caption_{job_id}.png` (line 324) -/
  | caption
  /-- `outputs/output_{job_id}.mp4` (line 368) -/
  | output
  /-- `outputs/frame_{job_id}.jpg` (line 331) -/
  | frame
  deriving DecidableEq, Repr

/-- `cleanup_files(file_list)` (lines 58-66) against a disk state: for each
path in the list, if it exists, remove it.  Returns the remaining disk
contents and the log of actually removed files (one entry per `os.remove`). -/
def cleanup_files : List JobFile → List JobFile → List JobFile × List JobFile
  | [], disk => (disk, [])
  | f :: rest, disk =>
    if f ∈ disk then
      ((cleanup_files rest (disk.erase f)).1,
        f :: (cleanup_files rest (disk.erase f)).2)
    else cleanup_files rest disk

/-! ## Job processing (`process_video_job`, lines 346-454)

The network, the PIL font/measurement calls, and the ffmpeg/ffprobe
subprocesses are external; a `JobWorld` records the outcome of each such
call, and `process_video_job` is the source's control flow over those
outcomes.  Python exceptions are modelled by `PyExc`; the single
`except Exception` handler at the job-runner boundary (lines 448-450)
becomes the `boundaryLog` field of the resulting trace, and the `finally`
block (lines 452-454) always applies `cleanup_files` to the recorded list. -/

/-- A Python exception reaching the job-runner boundary.  `str(e)` is
modelled by `excMessage`; for the subprocess exceptions the rendered command
line is elided (its exact text does not matter to any claim; only the
truncation behavior of the handler is at issue). -/
inductive PyExc where
  | valueError (msg : String)
  | calledProcessError (returncode : ℤ) (stderrText : String)
  | timeoutExpired (timeoutSecs : ℕ)
  | other (msg : String)
  deriving DecidableEq, Repr

/-- `str(e)` as a character list. -/
def excMessage : PyExc → List Char
  | .valueError m => m.data
  | .calledProcessError rc _ =>
    ("Command returned non-zero exit status " ++ toString rc ++ ".").data
  | .timeoutExpired secs =>
    ("Command timed out after " ++ toString secs ++ " seconds").data
  | .other m => m.data

/-- Python `s[-n:]`: the last `n` characters. -/
def lastN (n : ℕ) (s : List Char) : List Char := s.drop (s.length - n)

/-- Outcome of `download_telegram_file` (lines 210-237): the function catches
all its exceptions; on failure it returns `None`, possibly leaving a
partially streamed file on disk. -/
inductive DownloadOutcome where
  | ok (ext : String)
  | failed (partialLeft : Bool) (ext : String)
  deriving DecidableEq, Repr

/-- Outcome of `get_media_dimensions` (lines 239-252): probed dimensions, the
`(None, None, None)` ffprobe-failure result, or an uncaught exception (e.g.
`PIL.Image.open` failing on an image). -/
inductive ProbeOutcome where
  | ok (w h : ℕ) (duration : ℚ)
  | unavailable
  | raised (msg : String)
  deriving DecidableEq, Repr

/-- Outcome of `create_caption_image`: success, or an uncaught exception
(e.g. the font file missing). -/
inductive CaptionOutcome where
  | ok
  | raised (msg : String)
  deriving DecidableEq, Repr

/-- Outcome of the blocking encoder invocation `subprocess.run` (line 434):
clean exit, non-zero exit, or timeout; in the failure cases ffmpeg may or may
not have created a partial output file. -/
inductive EncodeOutcome where
  | ok
  | nonZero (returncode : ℤ) (stderrText : String) (partialLeft : Bool)
  | timedOut (partialLeft : Bool)
  deriving DecidableEq, Repr

/-- Outcome of `extract_frame_from_video` (lines 329-344): the function
catches its subprocess errors and returns `None` on failure, possibly leaving
a partial frame file. -/
inductive FrameOutcome where
  | ok
  | failed (partialLeft : Bool)
  deriving DecidableEq, Repr

/-- Outcome of `submit_result_to_worker` (lines 181-206): success; a
`requests` transport error, which the function itself catches (returning
`False`); or an exception it does not catch (e.g. `open` failing). -/
inductive SubmitOutcome where
  | ok
  | requestError (msg : String)
  | raised (msg : String)
  deriving DecidableEq, Repr

/-- The outcomes of every external call one job makes. -/
structure JobWorld where
  download : DownloadOutcome
  probe : ProbeOutcome
  capt : CaptionOutcome
  encode : EncodeOutcome
  frame : FrameOutcome
  submit : SubmitOutcome
  deriving DecidableEq, Repr

/-- A job descriptor as decoded from the queue (spec `JobDescriptor`). -/
structure JobData where
  job_id : String
  chat_id : String
  file_id : String
  media_type : MediaType
  caption_text : String
  apply_fade : Bool
  deriving DecidableEq, Repr

/-- What one run of `process_video_job` did. -/
structure JobTrace where
  /-- Files existing on disk when the `finally` block runs. -/
  created : List JobFile
  /-- The `files_to_clean` list when the `finally` block runs. -/
  toClean : List JobFile
  /-- The `except Exception` handler's log entry (lines 448-450): job id and
  the truncated `str(e)[-1000:]` excerpt — `none` if no exception reached the
  boundary. -/
  boundaryLog : Option (String × List Char)
  /-- The log entry written inside `submit_result_to_worker` when it catches
  a transport error (line 203): full message, no job id, no truncation. -/
  submitLog : Option (List Char)
  /-- Whether the result was delivered to the worker endpoint. -/
  delivered : Bool
  deriving DecidableEq, Repr

/-- Helper building a `JobTrace` from the state the `try` body reached. -/
def mkTrace (j : JobData) (created toClean : List JobFile) (exc : Option PyExc)
    (slog : Option (List Char)) (delivered : Bool) : JobTrace :=
  { created := created
    toClean := toClean
    boundaryLog := exc.map fun e => (j.job_id, lastN 1000 (excMessage e))
    submitLog := slog
    delivered := delivered }

/-- `process_video_job(job_data)` (lines 346-454): the exact control flow of
the `try` body over the stage outcomes, the `except Exception` boundary
handler, and the recorded `files_to_clean` list. -/
def process_video_job (j : JobData) (w : JobWorld) : JobTrace :=
  match w.download with
  | .failed partialLeft ext =>
    mkTrace j (if partialLeft then [.media ext] else []) []
      (some (.valueError "Media download failed.")) none false
  | .ok ext =>
    let c0 : List JobFile := [.media ext]
    let t0 : List JobFile := [.media ext]
    match w.probe with
    | .raised m => mkTrace j c0 t0 (some (.other m)) none false
    | .unavailable =>
      mkTrace j c0 t0 (some (.valueError "Could not get media dimensions.")) none false
    | .ok mw mh dur =>
      if mw = 0 ∨ mh = 0 ∨ dur = 0 then
        mkTrace j c0 t0 (some (.valueError "Could not get media dimensions.")) none false
      else
        match w.capt with
        | .raised m => mkTrace j c0 t0 (some (.other m)) none false
        | .ok =>
          let c1 := c0 ++ [.caption]
          let t1 := t0 ++ [.caption]
          match w.encode with
          | .timedOut partialLeft =>
            mkTrace j (c1 ++ if partialLeft then [.output] else []) t1
              (some (.timeoutExpired ENCODE_TIMEOUT_SECONDS)) none false
          | .nonZero rc stderrText partialLeft =>
            mkTrace j (c1 ++ if partialLeft then [.output] else []) t1
              (some (.calledProcessError rc stderrText)) none false
          | .ok =>
            let c2 := c1 ++ [.output]
            let t2 := t1 ++ [.output]
            match w.frame with
            | .failed partialLeft =>
              mkTrace j (c2 ++ if partialLeft then [.frame] else []) t2
                (some (.valueError "Frame extraction failed.")) none false
            | .ok =>
              let c3 := c2 ++ [.frame]
              let t3 := t2 ++ [.frame]
              match w.submit with
              | .ok => mkTrace j c3 t3 none none true
              | .requestError m =>
                mkTrace j c3 t3 none
                  (some (("Error uploading result to worker: " ++ m).data)) false
              | .raised m => mkTrace j c3 t3 (some (.other m)) none false

/-- Files remaining on disk after the `finally` block's cleanup. -/
def leftoverFiles (t : JobTrace) : List JobFile :=
  (cleanup_files t.toClean t.created).1

/-- The files actually removed by the `finally` block's cleanup. -/
def removedFiles (t : JobTrace) : List JobFile :=
  (cleanup_files t.toClean t.created).2

/-- Some processing stage of the job failed. -/
def stageFailed (w : JobWorld) : Bool :=
  (match w.download with | .ok _ => false | _ => true) ||
  (match w.probe with
   | .ok mw mh dur => decide (mw = 0 ∨ mh = 0 ∨ dur = 0)
   | _ => true) ||
  (match w.capt with | .ok => false | _ => true) ||
  (match w.encode with | .ok => false | _ => true) ||
  (match w.frame with | .ok => false | _ => true) ||
  (match w.submit with | .ok => false | _ => true)

/-- A stage other than the delivery transport failed. -/
def stageFailedBeforeSubmitReq (w : JobWorld) : Bool :=
  (match w.download with | .ok _ => false | _ => true) ||
  (match w.probe with
   | .ok mw mh dur => decide (mw = 0 ∨ mh = 0 ∨ dur = 0)
   | _ => true) ||
  (match w.capt with | .ok => false | _ => true) ||
  (match w.encode with | .ok => false | _ => true) ||
  (match w.frame with | .ok => false | _ => true) ||
  (match w.submit with | .raised _ => true | _ => false)

/-- The encoder invocation failed (non-zero exit or timeout). -/
def encodeFailed (w : JobWorld) : Bool :=
  match w.encode with | .ok => false | _ => true

/-- The run reached the encoder invocation: download, probe (with nonzero
dimensions and duration) and caption rendering all succeeded. -/
def reachedEncode (w : JobWorld) : Bool :=
  (match w.download with | .ok _ => true | _ => false) &&
  (match w.probe with
   | .ok mw mh dur => !(decide (mw = 0 ∨ mh = 0 ∨ dur = 0))
   | _ => false) &&
  (match w.capt with | .ok => true | _ => false)

/-- The failed encoder invocation left a partial output file behind. -/
def encodeLeftPartial (w : JobWorld) : Bool :=
  match w.encode with
  | .nonZero _ _ p => p
  | .timedOut p => p
  | .ok => false

/-! ## Queue fetch (`fetch_job_from_redis`, lines 148-179)

`requests.get` either raises a transport error or yields a response;
`raise_for_status` raises exactly for status codes 400-599; `response.json()`
and `json.loads` are abstracted by the world's parse fields.  Every raised
exception is caught by the function's two handlers and converted to `None`. -/

/-- The HTTP interaction of one queue poll. -/
inductive HttpResult where
  /-- `requests.get` raised a `RequestException` (connection error, timeout). -/
  | transportError (msg : String)
  /-- A response arrived with this status code. -/
  | response (status : ℕ)
  deriving DecidableEq, Repr

/-- One queue poll's external outcome. -/
structure FetchWorld where
  http : HttpResult
  /-- `response.json().get("result")`: `none` if the body is not valid JSON
  (`JSONDecodeError`), `some none` for a null/absent result (empty queue),
  `some (some s)` for a present job string. -/
  bodyResult : Option (Option String)
  /-- `json.loads` on the job string: `none` on a `JSONDecodeError`. -/
  decodeJob : String → Option JobData

/-- `fetch_job_from_redis()` (lines 148-179).  `raise_for_status` raises
`HTTPError` exactly for client-error (400-499) and server-error (500-599)
status codes; any other status falls through to the body parsing. -/
def fetch_job_from_redis (w : FetchWorld) : Option JobData :=
  match w.http with
  | .transportError _ => none
  | .response status =>
    if 400 ≤ status ∧ status < 600 then none
    else
      match w.bodyResult with
      | none => none
      | some none => none
      | some (some s) => w.decodeJob s

/-- The genuinely-empty-queue poll outcome: HTTP 200 with a null `result`. -/
def emptyQueueWorld : FetchWorld :=
  { http := .response 200, bodyResult := some none, decodeJob := fun _ => none }

/-- The poll failed: transport error, 4xx/5xx status, undecodable body, or an
undecodable job string. -/
def fetchFailed (w : FetchWorld) : Prop :=
  (∃ m, w.http = .transportError m) ∨
  (∃ status, w.http = .response status ∧ 400 ≤ status ∧ status < 600) ∨
  w.bodyResult = none ∨
  (∃ s, w.bodyResult = some (some s) ∧ w.decodeJob s = none)

/-! ## Worker loop (`__main__`, lines 459-502)

The idle polling loop runs `fetch_job_from_redis` every 3 seconds until the
60-second window elapses; the finite list `idle` models the sequence of poll
results available at those instants (the loop stops early at the first job).
The draining loop then polls without a timeout until a poll returns empty;
`drain` models its successive poll results, and exhausting the list without
an empty poll means the source loop would still be running (`none` result).
Finally `stop_railway_deployment()` is invoked exactly once. -/

/-- Observable actions of the worker loop. -/
inductive Event where
  | polled (r : Option JobData)
  | processed (j : JobData)
  | stoppedRailway
  deriving DecidableEq, Repr

/-- The idle polling phase (lines 470-478): poll until a job arrives or the
window's polls are exhausted; returns the events and the first job if any. -/
def idlePhase : List (Option JobData) → List Event × Option JobData
  | [] => ([], none)
  | r :: rest =>
    match r with
    | some j => ([.polled (some j)], some j)
    | none =>
      let p := idlePhase rest
      (.polled none :: p.1, p.2)

/-- The draining phase (lines 486-493): poll and process until a poll returns
empty; `none` if the supplied poll results are exhausted first (the source
loop would continue past them). -/
def drainPhase : List (Option JobData) → Option (List Event)
  | [] => none
  | r :: rest =>
    match r with
    | none => some [.polled none]
    | some j => (drainPhase rest).map fun evs => .polled (some j) :: .processed j :: evs

/-- The whole `__main__` lifecycle (lines 459-502): idle polling, optional
first-job processing and drain, then the single deployment-stop call. -/
def mainRun (idle drain : List (Option JobData)) : Option (List Event) :=
  let p := idlePhase idle
  match p.2 with
  | none => some (p.1 ++ [.stoppedRailway])
  | some j =>
    (drainPhase drain).map fun devs =>
      p.1 ++ [.processed j] ++ devs ++ [.stoppedRailway]

/-- The jobs processed in an event list, in order. -/
def processedJobs (evs : List Event) : List JobData :=
  evs.filterMap fun e =>
    match e with
    | .processed j => some j
    | _ => none

/-- The number of queue polls in an event list. -/
def pollCount (evs : List Event) : ℕ :=
  (evs.filterMap fun e =>
    match e with
    | .polled r => some r
    | _ => none).length

/-! ## Concrete sample values used to instantiate the theorems -/

/-- A sample job descriptor. -/
def demoJob : JobData :=
  { job_id := "job42", chat_id := "chat7", file_id := "file9",
    media_type := .video, caption_text := "hello", apply_fade := true }

/-- A run in which every stage succeeds. -/
def allOkWorld : JobWorld :=
  { download := .ok ".mp4", probe := .ok 720 1280 12, capt := .ok,
    encode := .ok, frame := .ok, submit := .ok }

/-- A run in which the encoder times out after writing a partial output. -/
def encodeTimeoutWorld : JobWorld :=
  { download := .ok ".mp4", probe := .ok 720 1280 12, capt := .ok,
    encode := .timedOut true, frame := .ok, submit := .ok }

/-- A run in which only the result upload fails with a transport error. -/
def submitErrWorld : JobWorld :=
  { download := .ok ".mp4", probe := .ok 720 1280 12, capt := .ok,
    encode := .ok, frame := .ok, submit := .requestError "connection reset" }

/-- A run in which the media download fails. -/
def downloadFailWorld : JobWorld :=
  { download := .failed false ".mp4", probe := .unavailable, capt := .ok,
    encode := .ok, frame := .ok, submit := .ok }

/-- A queue poll that suffers a transport error. -/
def transientErrorWorld : FetchWorld :=
  { http := .transportError "connection timeout", bodyResult := none,
    decodeJob := fun _ => none }

/-- A queue poll whose final response is a non-2xx, non-4xx/5xx status (a
redirect that was not followed) carrying a decodable job payload. -/
def redirectWorld : FetchWorld :=
  { http := .response 301, bodyResult := some (some "payload"),
    decodeJob := fun _ => some demoJob }

/-! ## Lemmas about the wrapping machinery -/

theorem sumLen_nil : sumLen [] = 0 := rfl

theorem sumLen_cons (c : List Char) (l : List (List Char)) :
    sumLen (c :: l) = c.length + sumLen l := by
  simp [sumLen]

theorem sumLen_append (a b : List (List Char)) :
    sumLen (a ++ b) = sumLen a + sumLen b := by
  simp [sumLen]

theorem chunksMeasure_append (a b : List (List Char)) :
    chunksMeasure (a ++ b) = chunksMeasure a + chunksMeasure b := by
  simp [chunksMeasure, sumLen_append]; omega

theorem chunksMeasure_pos {x : List (List Char)} (h : x ≠ []) :
    1 ≤ chunksMeasure x := by
  cases x with
  | nil => exact absurd rfl h
  | cons c rest => simp [chunksMeasure, sumLen_cons]; omega

theorem takeFit_append (w : ℕ) (l : List (List Char)) : ∀ cl : ℕ,
    (takeFit w cl l).1 ++ (takeFit w cl l).2 = l := by
  induction l with
  | nil => intro cl; rfl
  | cons c rest ih =>
    intro cl
    by_cases h : cl + c.length ≤ w
    · simp [takeFit, h, ih]
    · simp [takeFit, h]

theorem takeFit_bound (w : ℕ) (l : List (List Char)) : ∀ cl : ℕ,
    cl + sumLen (takeFit w cl l).1 ≤ max cl w := by
  induction l with
  | nil => intro cl; simp [takeFit, sumLen_nil]
  | cons c rest ih =>
    intro cl
    by_cases h : cl + c.length ≤ w
    · have := ih (cl + c.length)
      rw [Nat.max_eq_right h] at this
      simp only [takeFit, h, if_pos, sumLen_cons]
      omega
    · simp [takeFit, h, sumLen_nil]

theorem takeFit_fst_nil {w cl : ℕ} {c : List Char} {rest : List (List Char)}
    (h : (takeFit w cl (c :: rest)).1 = []) :
    w < cl + c.length ∧ (takeFit w cl (c :: rest)).2 = c :: rest := by
  by_cases hf : cl + c.length ≤ w
  · simp [takeFit, hf] at h
  · exact ⟨Nat.lt_of_not_le hf, by simp [takeFit, hf]⟩

theorem keepChar_space : keepChar ' ' = false := by decide

theorem isSpaceChunk_filter_keep {c : List Char} (h : isSpaceChunk c = true) :
    c.filter keepChar = [] := by
  rw [List.filter_eq_nil_iff]
  intro a ha
  have ha' : a = ' ' := by
    have := List.all_eq_true.mp h a ha
    exact beq_iff_eq.mp this
  simp [ha', keepChar_space]

theorem dropLeading_filter (b : Bool) (ch : List (List Char)) :
    (dropLeading b ch).flatten.filter keepChar = ch.flatten.filter keepChar := by
  cases ch with
  | nil => rfl
  | cons c rest =>
    by_cases h : (b && isSpaceChunk c) = true
    · have hs : isSpaceChunk c = true := by
        have h' : b = true ∧ isSpaceChunk c = true := by simpa using h
        exact h'.2
      simp [dropLeading, h, List.filter_append, isSpaceChunk_filter_keep hs]
    · simp [dropLeading, h]

theorem dropLeading_cases (b : Bool) (ch : List (List Char)) :
    dropLeading b ch = ch ∨
      ∃ c rest, ch = c :: rest ∧ dropLeading b ch = rest := by
  cases ch with
  | nil => exact Or.inl rfl
  | cons c rest =>
    by_cases h : (b && isSpaceChunk c) = true
    · exact Or.inr ⟨c, rest, rfl, by simp [dropLeading, h]⟩
    · exact Or.inl (by simp [dropLeading, h])

theorem handleLong_long {w : ℕ} {c : List Char} (cur rest : List (List Char))
    (h : w < c.length) :
    handleLong w cur (c :: rest) =
      (cur ++ [c.take (if w < 1 then 1 else w - sumLen cur)],
        c.drop (if w < 1 then 1 else w - sumLen cur) :: rest) := by
  simp [handleLong, h]

theorem handleLong_short {w : ℕ} {c : List Char} (cur rest : List (List Char))
    (h : ¬ w < c.length) :
    handleLong w cur (c :: rest) = (cur, c :: rest) := by
  simp [handleLong, h]

theorem handleLong_flatten (w : ℕ) (cur r : List (List Char)) :
    (handleLong w cur r).1.flatten ++ (handleLong w cur r).2.flatten =
      cur.flatten ++ r.flatten := by
  cases r with
  | nil => simp [handleLong]
  | cons c rest =>
    by_cases h : w < c.length
    · rw [handleLong_long cur rest h]
      simp only [List.flatten_append, List.flatten_cons, List.flatten_nil,
        List.append_nil]
      rw [List.append_assoc, ← List.append_assoc (List.take _ c),
        List.take_append_drop]
    · rw [handleLong_short cur rest h]

theorem handleLong_sumLen {w : ℕ} (hw : 1 ≤ w) (cur r : List (List Char))
    (hcur : sumLen cur ≤ w) : sumLen (handleLong w cur r).1 ≤ w := by
  cases r with
  | nil => simpa [handleLong] using hcur
  | cons c rest =>
    by_cases h : w < c.length
    · have hw1 : ¬ w < 1 := by omega
      rw [handleLong_long cur rest h, if_neg hw1]
      simp only [sumLen_append, sumLen_cons, sumLen_nil, List.length_take]
      omega
    · rw [handleLong_short cur rest h]
      exact hcur

theorem handleLong_measure_le (w : ℕ) (cur r : List (List Char)) :
    chunksMeasure (handleLong w cur r).2 ≤ chunksMeasure r := by
  cases r with
  | nil => simp [handleLong]
  | cons c rest =>
    by_cases h : w < c.length
    · rw [handleLong_long cur rest h]
      simp only [chunksMeasure, sumLen_cons, List.length_cons, List.length_drop]
      omega
    · rw [handleLong_short cur rest h]

theorem handleLong_measure_lt {w : ℕ} (hw : 1 ≤ w) {c : List Char}
    (rest : List (List Char)) (h : w < c.length) :
    chunksMeasure (handleLong w [] (c :: rest)).2 < chunksMeasure (c :: rest) := by
  have hw1 : ¬ w < 1 := by omega
  rw [handleLong_long [] rest h, if_neg hw1]
  simp only [chunksMeasure, sumLen_cons, List.length_cons, List.length_drop,
    sumLen_nil]
  omega

theorem sumLen_dropTrailingWs_le (x : List (List Char)) :
    sumLen (dropTrailingWs x) ≤ sumLen x := by
  induction x with
  | nil => simp [dropTrailingWs]
  | cons c rest ih =>
    cases rest with
    | nil =>
      by_cases h : isSpaceChunk c = true
      · simp [dropTrailingWs, h, sumLen_nil]
      · simp [dropTrailingWs, h]
    | cons c2 r2 =>
      have hd : dropTrailingWs (c :: c2 :: r2) = c :: dropTrailingWs (c2 :: r2) := rfl
      rw [hd, sumLen_cons, sumLen_cons]
      exact Nat.add_le_add_left ih c.length

theorem dropTrailingWs_filter (x : List (List Char)) :
    (dropTrailingWs x).flatten.filter keepChar = x.flatten.filter keepChar := by
  induction x with
  | nil => rfl
  | cons c rest ih =>
    cases rest with
    | nil =>
      by_cases h : isSpaceChunk c = true
      · simp [dropTrailingWs, h, isSpaceChunk_filter_keep h]
      · simp [dropTrailingWs, h]
    | cons c2 r2 =>
      have hd : dropTrailingWs (c :: c2 :: r2) = c :: dropTrailingWs (c2 :: r2) := rfl
      rw [hd, List.flatten_cons, List.flatten_cons, List.filter_append,
        List.filter_append, ih]

theorem wrapStep_line_le {w : ℕ} (hw : 1 ≤ w) (b : Bool) (ch : List (List Char))
    {l : List Char} (h : (wrapStep w b ch).1 = some l) : l.length ≤ w := by
  unfold wrapStep at h
  set ch1 := dropLeading b ch with hch1
  set p := takeFit w 0 ch1 with hp
  set q := handleLong w p.1 p.2 with hq
  set cur := dropTrailingWs q.1 with hcur
  by_cases he : cur.isEmpty
  · simp [he] at h
  · simp only [he, if_neg, Bool.false_eq_true, not_false_eq_true, if_false] at h
    have hl : l = cur.flatten := by
      by_contra hne
      simp [he] at h
      exact hne h.symm
    have h1 : sumLen p.1 ≤ w := by
      have := takeFit_bound w ch1 0
      simpa using this
    have h2 : sumLen q.1 ≤ w := handleLong_sumLen hw p.1 p.2 h1
    have h3 : sumLen cur ≤ sumLen q.1 := sumLen_dropTrailingWs_le q.1
    have h4 : l.length = sumLen cur := by
      rw [hl]
      simp [sumLen, List.length_flatten]
    omega

theorem wrapStep_preserve (w : ℕ) (b : Bool) (ch : List (List Char)) :
    (((wrapStep w b ch).1.getD [] ++ (wrapStep w b ch).2.flatten).filter keepChar)
      = ch.flatten.filter keepChar := by
  unfold wrapStep
  set ch1 := dropLeading b ch with hch1
  set p := takeFit w 0 ch1 with hp
  set q := handleLong w p.1 p.2 with hq
  set cur := dropTrailingWs q.1 with hcur
  have hget : (if cur.isEmpty then (none : Option (List Char)) else some cur.flatten).getD []
      = cur.flatten := by
    cases hcc : cur with
    | nil => simp [hcc]
    | cons a l => simp [hcc]
  simp only [hget]
  rw [List.filter_append]
  rw [hcur, dropTrailingWs_filter q.1]
  rw [← List.filter_append]
  rw [handleLong_flatten w p.1 p.2]
  rw [← List.flatten_append, takeFit_append w ch1 0]
  exact dropLeading_filter b ch

theorem fitLong_measure_le (w : ℕ) (ch2 : List (List Char)) :
    chunksMeasure (handleLong w (takeFit w 0 ch2).1 (takeFit w 0 ch2).2).2 ≤
      chunksMeasure ch2 := by
  have happ : (takeFit w 0 ch2).1 ++ (takeFit w 0 ch2).2 = ch2 := takeFit_append w ch2 0
  have hm : chunksMeasure (takeFit w 0 ch2).1 + chunksMeasure (takeFit w 0 ch2).2
      = chunksMeasure ch2 := by rw [← chunksMeasure_append, happ]
  have hle := handleLong_measure_le w (takeFit w 0 ch2).1 (takeFit w 0 ch2).2
  omega

theorem fitLong_measure_lt {w : ℕ} (hw : 1 ≤ w) (ch2 : List (List Char))
    (hne : ch2 ≠ []) :
    chunksMeasure (handleLong w (takeFit w 0 ch2).1 (takeFit w 0 ch2).2).2 <
      chunksMeasure ch2 := by
  by_cases hp1 : (takeFit w 0 ch2).1 = []
  · cases ch2 with
    | nil => exact absurd rfl hne
    | cons c rest =>
      have hfit := takeFit_fst_nil hp1
      rw [hp1, hfit.2]
      exact handleLong_measure_lt hw rest (by have := hfit.1; omega)
  · have happ : (takeFit w 0 ch2).1 ++ (takeFit w 0 ch2).2 = ch2 := takeFit_append w ch2 0
    have hm : chunksMeasure (takeFit w 0 ch2).1 + chunksMeasure (takeFit w 0 ch2).2
        = chunksMeasure ch2 := by rw [← chunksMeasure_append, happ]
    have hpos := chunksMeasure_pos hp1
    have hle := handleLong_measure_le w (takeFit w 0 ch2).1 (takeFit w 0 ch2).2
    omega

theorem wrapStep_measure {w : ℕ} (hw : 1 ≤ w) (b : Bool) {ch : List (List Char)}
    (hne : ch ≠ []) : chunksMeasure (wrapStep w b ch).2 < chunksMeasure ch := by
  have hstep : (wrapStep w b ch).2 =
      (handleLong w (takeFit w 0 (dropLeading b ch)).1
        (takeFit w 0 (dropLeading b ch)).2).2 := rfl
  rw [hstep]
  rcases dropLeading_cases b ch with hcase | ⟨c, rest, hch, hdrop⟩
  · rw [hcase]
    exact fitLong_measure_lt hw ch hne
  · rw [hdrop]
    have h1 := fitLong_measure_le w rest
    have h2 : chunksMeasure ch = chunksMeasure [c] + chunksMeasure rest := by
      rw [hch, show (c :: rest) = [c] ++ rest from rfl, chunksMeasure_append]
    have hcpos : 1 ≤ chunksMeasure [c] := chunksMeasure_pos (by simp)
    omega

theorem wrapGo_mem_length {w : ℕ} (hw : 1 ≤ w) :
    ∀ (fuel : ℕ) (b : Bool) (ch : List (List Char)) (l : List Char),
      l ∈ wrapGo w fuel b ch → l.length ≤ w := by
  intro fuel
  induction fuel with
  | zero =>
    intro b ch l hl
    cases ch with
    | nil => simp [wrapGo] at hl
    | cons c rest => simp [wrapGo] at hl
  | succ fuel ih =>
    intro b ch l hl
    cases ch with
    | nil => simp [wrapGo] at hl
    | cons c rest =>
      rw [show wrapGo w (fuel + 1) b (c :: rest) =
          (match (wrapStep w b (c :: rest)).1 with
           | some l0 => l0 :: wrapGo w fuel true (wrapStep w b (c :: rest)).2
           | none => wrapGo w fuel b (wrapStep w b (c :: rest)).2) from rfl] at hl
      cases hstep : (wrapStep w b (c :: rest)).1 with
      | some l0 =>
        rw [hstep] at hl
        rcases List.mem_cons.mp hl with hEq | hMem
        · rw [hEq]; exact wrapStep_line_le hw b (c :: rest) hstep
        · exact ih true _ l hMem
      | none =>
        rw [hstep] at hl
        exact ih b _ l hl

theorem wrapGo_preserve {w : ℕ} (hw : 1 ≤ w) :
    ∀ (fuel : ℕ) (b : Bool) (ch : List (List Char)),
      chunksMeasure ch < fuel →
      (wrapGo w fuel b ch).flatten.filter keepChar = ch.flatten.filter keepChar := by
  intro fuel
  induction fuel with
  | zero => intro b ch hm; omega
  | succ fuel ih =>
    intro b ch hm
    cases ch with
    | nil => simp [wrapGo]
    | cons c rest =>
      have hne : (c :: rest) ≠ ([] : List (List Char)) := by simp
      have hmeas := wrapStep_measure hw b hne
      have hnext : chunksMeasure (wrapStep w b (c :: rest)).2 < fuel := by omega
      have hpres := wrapStep_preserve w b (c :: rest)
      rw [show wrapGo w (fuel + 1) b (c :: rest) =
          (match (wrapStep w b (c :: rest)).1 with
           | some l0 => l0 :: wrapGo w fuel true (wrapStep w b (c :: rest)).2
           | none => wrapGo w fuel b (wrapStep w b (c :: rest)).2) from rfl]
      cases hstep : (wrapStep w b (c :: rest)).1 with
      | some l0 =>
        simp only [List.flatten_cons, List.filter_append, ih true _ hnext]
        rw [hstep] at hpres
        simp only [Option.getD_some, List.filter_append, List.flatten_cons] at hpres
        exact hpres
      | none =>
        simp only
        rw [ih b _ hnext]
        rw [hstep] at hpres
        simpa using hpres

theorem chunksOf_ne_nil : ∀ (s : List Char), ∀ c ∈ chunksOf s, c ≠ [] := by
  intro s
  induction s with
  | nil => intro c hc; simp [chunksOf] at hc
  | cons a rest ih =>
    intro c hc
    rw [chunksOf] at hc
    cases hr : chunksOf rest with
    | nil =>
      rw [hr] at hc
      simp at hc
      rw [hc]
      simp
    | cons chunk chunks =>
      rw [hr] at hc
      have hchunk : chunk ≠ [] := ih chunk (by rw [hr]; exact List.mem_cons_self _ _)
      cases hck : chunk with
      | nil => exact absurd hck hchunk
      | cons d tl =>
        rw [hck] at hc
        by_cases hsame : ((a == ' ') == (d == ' ')) = true
        · simp only [hsame, if_pos] at hc
          rcases List.mem_cons.mp hc with hEq | hMem
          · rw [hEq]; simp
          · exact ih c (by rw [hr, hck]; exact List.mem_cons_of_mem _ hMem)
        · simp only [hsame] at hc
          simp at hc
          rcases hc with hEq | hEq | hMem
          · rw [hEq]; simp
          · rw [hEq]; simp
          · exact ih c (by rw [hr, hck]; exact List.mem_cons_of_mem _ hMem)

theorem chunksOf_flatten : ∀ (s : List Char), (chunksOf s).flatten = s := by
  intro s
  induction s with
  | nil => rfl
  | cons a rest ih =>
    rw [chunksOf]
    cases hr : chunksOf rest with
    | nil =>
      have : rest = [] := by rw [← ih, hr]; rfl
      simp [this]
    | cons chunk chunks =>
      have hchunk : chunk ≠ [] := chunksOf_ne_nil rest chunk
        (by rw [hr]; exact List.mem_cons_self _ _)
      cases hck : chunk with
      | nil => exact absurd hck hchunk
      | cons d tl =>
        rw [hr, hck] at ih
        by_cases hsame : ((a == ' ') == (d == ' ')) = true
        · simp only [hsame, if_pos, List.flatten_cons]
          rw [← ih]
          simp
        · simp only [hsame, Bool.false_eq_true, if_false, List.flatten_cons]
          rw [← ih]
          simp

theorem munge_filter (s : List Char) :
    (munge_whitespace s).filter keepChar = s.filter keepChar := by
  induction s with
  | nil => rfl
  | cons a rest ih =>
    by_cases h : a ∈ PY_WS
    · have hws : keepChar a = false := by simp [keepChar, h]
      have hsp : keepChar ' ' = false := keepChar_space
      simp only [munge_whitespace, List.map_cons] at ih ⊢
      rw [if_pos h, List.filter_cons, List.filter_cons, hsp, hws]
      simpa using ih
    · have hk : keepChar a = true := by simp [keepChar, h]
      simp only [munge_whitespace, List.map_cons] at ih ⊢
      rw [if_neg h, List.filter_cons, List.filter_cons, hk]
      simpa using ih

theorem textwrap_wrap_mem_length {l : List Char} {line : List Char}
    (h : l ∈ textwrap_wrap 30 line) : l.length ≤ 30 := by
  have hw : (1 : ℕ) ≤ 30 := by omega
  exact wrapGo_mem_length hw _ false _ l h

theorem textwrap_wrap_preserve (line : List Char) :
    (textwrap_wrap 30 line).flatten.filter keepChar = line.filter keepChar := by
  have hw : (1 : ℕ) ≤ 30 := by omega
  unfold textwrap_wrap
  rw [wrapGo_preserve hw _ false _ (by omega)]
  rw [chunksOf_flatten]
  exact munge_filter line

theorem wrappedBlock_of_nil {line : List Char} (h : textwrap_wrap 30 line = []) :
    wrappedBlock line = [[]] := by
  unfold wrappedBlock
  rw [h]

theorem wrappedBlock_of_cons {line a tl} (h : textwrap_wrap 30 line = a :: tl) :
    wrappedBlock line = a :: tl := by
  unfold wrappedBlock
  rw [h]

theorem wrappedBlock_ne_nil (line : List Char) : wrappedBlock line ≠ [] := by
  cases h : textwrap_wrap 30 line with
  | nil => rw [wrappedBlock_of_nil h]; simp
  | cons a l => rw [wrappedBlock_of_cons h]; simp

theorem wrappedBlock_mem_length {l : List Char} {line : List Char}
    (h : l ∈ wrappedBlock line) : l.length ≤ 30 := by
  cases hw : textwrap_wrap 30 line with
  | nil =>
    rw [wrappedBlock_of_nil hw] at h
    simp at h
    rw [h]
    simp
  | cons a tl =>
    rw [wrappedBlock_of_cons hw, ← hw] at h
    exact textwrap_wrap_mem_length h

theorem wrappedBlock_preserve (line : List Char) :
    (wrappedBlock line).flatten.filter keepChar = line.filter keepChar := by
  cases hw : textwrap_wrap 30 line with
  | nil =>
    rw [wrappedBlock_of_nil hw]
    have := textwrap_wrap_preserve line
    rw [hw] at this
    simpa using this
  | cons a tl =>
    rw [wrappedBlock_of_cons hw, ← hw]
    exact textwrap_wrap_preserve line

theorem wrappedBlock_nil : wrappedBlock [] = [[]] := rfl

theorem splitLines_ne_nil : ∀ (t : List Char), splitLines t ≠ [] := by
  intro t
  cases t with
  | nil => simp [splitLines]
  | cons c rest =>
    rw [splitLines]
    by_cases h : c = '\n'
    · rw [if_pos h]; simp
    · rw [if_neg h]
      cases hr : splitLines rest with
      | nil => simp
      | cons l ls => simp

theorem splitLines_filter (t : List Char) :
    ((splitLines t).map (fun l => l.filter keepChar)).flatten = t.filter keepChar := by
  induction t with
  | nil => rfl
  | cons c rest ih =>
    rw [splitLines]
    by_cases h : c = '\n'
    · subst h
      rw [if_pos rfl]
      simp only [List.map_cons, List.flatten_cons, List.filter_nil, List.nil_append]
      rw [ih, List.filter_cons]
      rw [if_neg (by decide : ¬ keepChar '\n' = true)]
    · rw [if_neg h]
      cases hr : splitLines rest with
      | nil => exact absurd hr (splitLines_ne_nil rest)
      | cons l ls =>
        rw [hr] at ih
        simp only [List.map_cons, List.flatten_cons] at ih ⊢
        rw [List.filter_cons, List.filter_cons]
        by_cases hkc : keepChar c = true
        · rw [if_pos hkc, if_pos hkc, List.cons_append, ih]
        · rw [if_neg hkc, if_neg hkc, ih]

/-- The contribution of the wrapped blocks of a line list, after flattening,
keeps exactly the non-whitespace characters. -/
theorem flatten_wrappedBlocks_filter : ∀ (L : List (List Char)),
    (((L.map wrappedBlock).flatten).flatten).filter keepChar =
      ((L.map (fun l => l.filter keepChar)).flatten) := by
  intro L
  induction L with
  | nil => rfl
  | cons l L ih =>
    simp only [List.map_cons, List.flatten_cons, List.flatten_append,
      List.filter_append, ih]
    rw [wrappedBlock_preserve]

theorem paddedText_eq (text : List Char) : paddedText text = text := by
  simp [paddedText, CAPTION_TOP_PADDING_LINES]

/-- C6: for every caption text, every line produced by the word-wrapping step
has at most 30 characters (long unbreakable words being force-split), no
non-whitespace character of the text is dropped, and an empty logical line
yields a single empty line rather than disappearing. -/
theorem claim_C6_wrap_bounds (text : List Char) :
    (∀ l ∈ final_lines text, l.length ≤ 30) ∧
    (final_lines text).flatten.filter keepChar = text.filter keepChar ∧
    (∀ line ∈ splitLines (paddedText text), wrappedBlock line ≠ []) ∧
    wrappedBlock [] = [[]] := by
  refine ⟨?_, ?_, ?_, rfl⟩
  · intro l hl
    rw [final_lines] at hl
    rcases List.mem_flatten.mp hl with ⟨block, hb, hlb⟩
    rcases List.mem_map.mp hb with ⟨line, _, rfl⟩
    exact wrappedBlock_mem_length hlb
  · rw [final_lines, flatten_wrappedBlocks_filter, splitLines_filter, paddedText_eq]
  · intro line _
    exact wrappedBlock_ne_nil line

/-- Witness for C6 at the concrete caption text `hello world`. -/
theorem claim_C6_wrap_bounds_witness :
    (('h' :: "ello world".data).length ≤ 30) ∧
    (final_lines "hello world".data).flatten.filter keepChar =
      "hello world".data.filter keepChar :=
  ⟨(claim_C6_wrap_bounds "hello world".data).1 ('h' :: "ello world".data) (by decide),
   (claim_C6_wrap_bounds "hello world".data).2.1⟩

/-! ## Claim theorems: composition filter graph -/

/-- C3: in the sequential fade-out variant with `apply_fade`, the layers are
exactly: background canvas at full duration, media composited onto it, a
full-canvas black layer fading out over the media fade duration starting at
time 0 composited on top, the caption composited on top of that, and a second
full-canvas black layer fading out over the caption fade duration composited
last; without `apply_fade`, both fade layers are skipped and only media then
caption are composited. -/
theorem claim_C3_sequential_fade (final_duration : ℚ) (mediaY : ℤ) :
    filter_parts true final_duration mediaY =
      [ .scaleMediaKeepAspect COMP_WIDTH "scaled_media",
        .overlayAtY "0:v" "scaled_media" mediaY "base_scene",
        .blackFadeOut COMP_WIDTH COMP_HEIGHT final_duration 0
          (MEDIA_FADE_DURATION : ℚ) "media_fade_layer",
        .overlayFull "base_scene" "media_fade_layer" "scene_after_media_fade",
        .overlayCentered "scene_after_media_fade" "2:v" "scene_with_text",
        .blackFadeOut COMP_WIDTH COMP_HEIGHT final_duration 0
          (CAPTION_FADE_DURATION : ℚ) "caption_fade_layer",
        .overlayFull "scene_with_text" "caption_fade_layer" "final_v" ] ∧
    filter_parts false final_duration mediaY =
      [ .scaleMediaKeepAspect COMP_WIDTH "scaled_media",
        .overlayAtY "0:v" "scaled_media" mediaY "base_scene",
        .overlayCentered "base_scene" "2:v" "final_v" ] ∧
    (∀ mt : MediaType, (ffmpeg_inputs mt final_duration).head? =
      some (.colorSource BACKGROUND_COLOR COMP_WIDTH COMP_HEIGHT final_duration)) := by
  refine ⟨rfl, rfl, ?_⟩
  intro mt
  cases mt <;> rfl

/-- C4: both documented fade timelines are configuration-selected behavior:
one configuration value yields the fade-in variant (per-layer alpha ramps
from 0 plus a music track trimmed to the output duration with a trailing
fade-out), a different one yields the sequential fade-out variant. -/
theorem claim_C4_both_variants :
    ∃ v v' : FadeVariant, v ≠ v' ∧
      (∀ (dur : ℚ) (mediaY : ℤ) (mfd cfd mus : ℚ),
        build_composition v true dur mediaY mfd cfd mus =
          [ .scaleMediaKeepAspect COMP_WIDTH "scaled_media",
            .overlayWithFadeIn "0:v" "scaled_media" 0 mfd "scene_with_media",
            .overlayWithFadeIn "scene_with_media" "2:v" 0 cfd "final_v",
            .musicTrimFadeOut dur mus ]) ∧
      (∀ (af : Bool) (dur : ℚ) (mediaY : ℤ) (mfd cfd mus : ℚ),
        build_composition v' af dur mediaY mfd cfd mus =
          filter_parts af dur mediaY) :=
  ⟨.fadeIn, .sequentialFadeOut, by decide,
   fun _ _ _ _ _ => rfl, fun _ _ _ _ _ _ => rfl⟩

/-! ## Claim theorems: caption canvas and media geometry -/

/-- C5: for every caption text and font measurement, the caption raster's
canvas width equals the measured text bounding-box width plus exactly 4 times
the configured blur radius, and likewise for its height. -/
theorem claim_C5_caption_canvas (measure : List (List Char) → BBox)
    (text : List Char) :
    (create_caption_image measure text).1.width =
      text_width (measure (final_lines text)) + 4 * (SHADOW_BLUR_RADIUS : ℤ) ∧
    (create_caption_image measure text).1.height =
      text_height (measure (final_lines text)) + 4 * (SHADOW_BLUR_RADIUS : ℤ) := by
  constructor
  · show text_width (measure (final_lines text)) + img_padding = _
    rw [img_padding]; ring
  · show text_height (measure (final_lines text)) + img_padding = _
    rw [img_padding]; ring

theorem pyInt_nonneg_eq_floor {q : ℚ} (h : 0 ≤ q) : pyInt q = ⌊q⌋ := by
  unfold pyInt
  rw [if_neg (not_lt.mpr h)]

theorem pyInt_intCast (n : ℤ) : pyInt (n : ℚ) = n := by
  unfold pyInt
  by_cases h : (n : ℚ) < 0
  · rw [if_pos h, ← Int.cast_neg, Int.floor_intCast, neg_neg]
  · rw [if_neg h, Int.floor_intCast]

/-- C7 (amended): for media with positive dimensions, the media is scaled
uniformly so its width equals the canvas width (the first filter part scales
to `COMP_WIDTH` keeping aspect) and the scaled height is
`⌊media_h·1080/media_w⌋`; the computed vertical position is the Python
`int()` truncation of `(COMP_HEIGHT/2 - scaled_media_h/2) + MEDIA_Y_OFFSET`,
which equals that formula exactly whenever the scaled height is even. -/
theorem claim_C7_media_geometry (media_w media_h : ℕ) (hw : 0 < media_w)
    (hh : 0 < media_h) :
    scaled_media_h media_w media_h =
      ⌊((media_h : ℚ) * (COMP_WIDTH : ℚ)) / (media_w : ℚ)⌋ ∧
    (∀ (af : Bool) (dur : ℚ),
      (filter_parts af dur (media_y_pos media_w media_h)).head? =
        some (.scaleMediaKeepAspect COMP_WIDTH "scaled_media")) ∧
    media_y_pos media_w media_h =
      pyInt ((COMP_HEIGHT : ℚ) / 2 - (scaled_media_h media_w media_h : ℚ) / 2
        + (MEDIA_Y_OFFSET : ℚ)) ∧
    ((2 : ℤ) ∣ scaled_media_h media_w media_h →
      (media_y_pos media_w media_h : ℚ) =
        (COMP_HEIGHT : ℚ) / 2 - (scaled_media_h media_w media_h : ℚ) / 2
          + (MEDIA_Y_OFFSET : ℚ)) := by
  refine ⟨?_, ?_, rfl, ?_⟩
  · rw [scaled_media_h, scaleFactor]
    rw [pyInt_nonneg_eq_floor (by positivity)]
    rw [mul_div_assoc]
  · intro af dur
    cases af <;> rfl
  · rintro ⟨k, hk⟩
    have hexpr : (COMP_HEIGHT : ℚ) / 2 - (scaled_media_h media_w media_h : ℚ) / 2
        + (MEDIA_Y_OFFSET : ℚ) = ((960 - k : ℤ) : ℚ) := by
      rw [hk]
      rw [show ((COMP_HEIGHT : ℕ) : ℚ) = 1920 from by norm_num [COMP_HEIGHT]]
      rw [show ((MEDIA_Y_OFFSET : ℤ) : ℚ) = 0 from by norm_num [MEDIA_Y_OFFSET]]
      push_cast
      ring
    rw [media_y_pos, hexpr, pyInt_intCast]

/-- Counterexample to C7 as stated: at a 1080x951 asset the scaled height is
odd (951), the formula value is 484.5, and the source's `int()` truncation
(line 372) computes 484, so the position does not equal
`(COMP_HEIGHT/2 - scaled_media_h/2) + MEDIA_Y_OFFSET`. -/
theorem claim_C7_counterexample :
    scaled_media_h 1080 951 = 951 ∧
    media_y_pos 1080 951 = 484 ∧
    (media_y_pos 1080 951 : ℚ) ≠
      (COMP_HEIGHT : ℚ) / 2 - (scaled_media_h 1080 951 : ℚ) / 2
        + (MEDIA_Y_OFFSET : ℚ) := by
  have h1 : scaled_media_h 1080 951 = 951 := by
    rw [scaled_media_h, scaleFactor]
    rw [show ((951 : ℕ) : ℚ) * ((COMP_WIDTH : ℚ) / ((1080 : ℕ) : ℚ)) = 951 from by
      norm_num [COMP_WIDTH]]
    rw [pyInt_nonneg_eq_floor (by norm_num)]
    norm_num
  have h2 : media_y_pos 1080 951 = 484 := by
    rw [media_y_pos, h1]
    rw [show (COMP_HEIGHT : ℚ) / 2 - ((951 : ℤ) : ℚ) / 2 + (MEDIA_Y_OFFSET : ℚ)
        = 969 / 2 from by norm_num [COMP_HEIGHT, MEDIA_Y_OFFSET]]
    rw [pyInt_nonneg_eq_floor (by norm_num)]
    norm_num [Int.floor_eq_iff]
  refine ⟨h1, h2, ?_⟩
  rw [h1, h2]
  rw [show (COMP_HEIGHT : ℚ) = 1920 from by norm_num [COMP_HEIGHT]]
  rw [show ((MEDIA_Y_OFFSET : ℤ) : ℚ) = 0 from by norm_num [MEDIA_Y_OFFSET]]
  norm_num

/-- Witness for C7 (amended) at a concrete 720x1280 video asset. -/
theorem claim_C7_media_geometry_witness :
    scaled_media_h 720 1280 =
      ⌊((1280 : ℚ) * (COMP_WIDTH : ℚ)) / (720 : ℚ)⌋ ∧
    (media_y_pos 720 1280 : ℚ) =
      (COMP_HEIGHT : ℚ) / 2 - (scaled_media_h 720 1280 : ℚ) / 2
        + (MEDIA_Y_OFFSET : ℚ) := by
  have h := claim_C7_media_geometry 720 1280 (by norm_num) (by norm_num)
  refine ⟨by simpa using h.1, h.2.2.2 ?_⟩
  have hval : scaled_media_h 720 1280 = 1920 := by
    rw [h.1]
    rw [show ((1280 : ℕ) : ℚ) * (COMP_WIDTH : ℚ) / ((720 : ℕ) : ℚ) = 1920 from by
      norm_num [COMP_WIDTH]]
    norm_num
  rw [hval]
  norm_num

/-! ## Claim theorems: worker loop and queue fetch -/

theorem idlePhase_all_none {idle : List (Option JobData)}
    (h : ∀ r ∈ idle, r = none) :
    idlePhase idle = (idle.map Event.polled, none) := by
  induction idle with
  | nil => rfl
  | cons r rest ih =>
    have hr : r = none := h r (List.mem_cons_self _ _)
    subst hr
    rw [idlePhase]
    simp only [List.map_cons]
    rw [ih fun x hx => h x (List.mem_cons_of_mem _ hx)]

theorem processedJobs_append (a b : List Event) :
    processedJobs (a ++ b) = processedJobs a ++ processedJobs b := by
  simp [processedJobs, List.filterMap_append]

theorem processedJobs_cons_polled (r : Option JobData) (evs : List Event) :
    processedJobs (Event.polled r :: evs) = processedJobs evs := rfl

theorem processedJobs_map_polled (rs : List (Option JobData)) :
    processedJobs (rs.map Event.polled) = [] := by
  induction rs with
  | nil => rfl
  | cons r rest ih => rw [List.map_cons, processedJobs_cons_polled, ih]

theorem pollCount_append (a b : List Event) :
    pollCount (a ++ b) = pollCount a + pollCount b := by
  simp [pollCount, List.filterMap_append]

theorem pollCount_cons_polled (r : Option JobData) (evs : List Event) :
    pollCount (Event.polled r :: evs) = pollCount evs + 1 := by
  simp [pollCount, List.filterMap_cons]

theorem pollCount_map_polled (rs : List (Option JobData)) :
    pollCount (rs.map Event.polled) = rs.length := by
  induction rs with
  | nil => rfl
  | cons r rest ih => rw [List.map_cons, pollCount_cons_polled, ih, List.length_cons]

theorem count_stopped_map_polled (rs : List (Option JobData)) :
    (rs.map Event.polled).count Event.stoppedRailway = 0 := by
  induction rs with
  | nil => rfl
  | cons r rest ih => simp [List.count_cons, ih]

/-- C8: if every queue poll during the idle window returns empty, the worker
reaches shutdown having processed zero jobs and having invoked the
deployment-stop collaborator exactly once. -/
theorem claim_C8_idle_shutdown (idle drain : List (Option JobData))
    (h : ∀ r ∈ idle, r = none) :
    mainRun idle drain = some (idle.map Event.polled ++ [Event.stoppedRailway]) ∧
    (∀ evs, mainRun idle drain = some evs →
      processedJobs evs = [] ∧ evs.count Event.stoppedRailway = 1) := by
  have h1 : mainRun idle drain =
      some (idle.map Event.polled ++ [Event.stoppedRailway]) := by
    rw [mainRun, idlePhase_all_none h]
  refine ⟨h1, ?_⟩
  intro evs hevs
  rw [h1] at hevs
  have hevs' : evs = idle.map Event.polled ++ [Event.stoppedRailway] :=
    (Option.some.injEq _ _ ▸ hevs).symm
  subst hevs'
  constructor
  · rw [processedJobs_append, processedJobs_map_polled]
    rfl
  · rw [List.count_append, count_stopped_map_polled]
    rfl

/-- Witness for C8 with a two-poll idle window. -/
theorem claim_C8_idle_shutdown_witness :
    mainRun [none, none] [] =
      some [Event.polled none, Event.polled none, Event.stoppedRailway] ∧
    processedJobs [Event.polled none, Event.polled none, Event.stoppedRailway] = [] ∧
    [Event.polled none, Event.polled none,
      Event.stoppedRailway].count Event.stoppedRailway = 1 := by
  have h := claim_C8_idle_shutdown [none, none] [] (by simp)
  refine ⟨by simpa using h.1, ?_, ?_⟩
  · exact (h.2 _ h.1).1
  · exact (h.2 _ h.1).2

theorem idlePhase_replicate_none (k : ℕ) (A : JobData)
    (rest : List (Option JobData)) :
    idlePhase (List.replicate k none ++ some A :: rest) =
      ((List.replicate k none).map Event.polled ++ [Event.polled (some A)],
        some A) := by
  induction k with
  | zero => rfl
  | succ k ih =>
    rw [List.replicate_succ, List.cons_append, idlePhase]
    simp only [List.map_cons, List.replicate_succ]
    rw [ih]
    rfl

/-- C9: a queue yielding exactly one job `A` on some poll within the idle
window, then empty on the following poll, makes the worker process `A`
exactly once, make at least two poll calls (one returning `A`, one returning
empty), and shut down with a single deployment-stop call. -/
theorem claim_C9_single_job (k : ℕ) (A : JobData) (rest d : List (Option JobData)) :
    ∃ evs, mainRun (List.replicate k none ++ some A :: rest) (none :: d) = some evs ∧
      processedJobs evs = [A] ∧
      pollCount evs = k + 2 ∧
      2 ≤ pollCount evs ∧
      evs.count Event.stoppedRailway = 1 ∧
      evs.count (Event.polled (some A)) = 1 ∧
      1 ≤ evs.count (Event.polled none) := by
  refine ⟨((List.replicate k none).map Event.polled ++ [Event.polled (some A)]) ++
    [Event.processed A] ++ [Event.polled none] ++ [Event.stoppedRailway],
    ?_, ?_, ?_, ?_, ?_, ?_, ?_⟩
  · rw [mainRun, idlePhase_replicate_none k A rest]
    rfl
  · simp only [processedJobs_append, processedJobs_map_polled]
    rfl
  · simp only [pollCount_append, pollCount_map_polled, List.length_replicate]
    rfl
  · simp only [pollCount_append, pollCount_map_polled, List.length_replicate]
    show 2 ≤ k + 1 + 0 + 1 + 0
    omega
  · simp only [List.count_append, count_stopped_map_polled]
    rfl
  · have h0 : (List.replicate k (Event.polled none)).count
        (Event.polled (some A)) = 0 := by
      simp [List.count_replicate]
    simp [List.count_append, List.map_replicate, h0, List.count_cons]
  · simp only [List.count_append]
    have h1 : ([Event.polled none].count (Event.polled none)) = 1 := by simp
    omega

theorem fetch_failed_none {w : FetchWorld} (hfail : fetchFailed w) :
    fetch_job_from_redis w = none := by
  rcases hfail with ⟨m, hm⟩ | ⟨st, hst, h4, h6⟩ | hb | ⟨s, hs, hd⟩
  · simp [fetch_job_from_redis, hm]
  · simp [fetch_job_from_redis, hst, h4, h6]
  · cases hh : w.http with
    | transportError m => simp [fetch_job_from_redis, hh]
    | response st =>
      by_cases h46 : 400 ≤ st ∧ st < 600
      · simp [fetch_job_from_redis, hh, h46]
      · simp [fetch_job_from_redis, hh, h46, hb]
  · cases hh : w.http with
    | transportError m => simp [fetch_job_from_redis, hh]
    | response st =>
      by_cases h46 : 400 ≤ st ∧ st < 600
      · simp [fetch_job_from_redis, hh, h46]
      · simp [fetch_job_from_redis, hh, h46, hs, hd]

/-- C10 (amended): the queue fetch returns `None` — the same value as on a
genuinely empty queue — on a transport error, a 4xx/5xx response, or a
JSON-decode failure; consequently a single such transient failure during the
draining phase makes the worker conclude the queue is empty and proceed to
shutdown. -/
theorem claim_C10_fetch_failure (w : FetchWorld) (hfail : fetchFailed w) :
    fetch_job_from_redis w = fetch_job_from_redis emptyQueueWorld ∧
    fetch_job_from_redis w = none ∧
    (∀ rest, drainPhase (fetch_job_from_redis w :: rest) =
      some [Event.polled none]) := by
  have hnone := fetch_failed_none hfail
  refine ⟨by rw [hnone]; rfl, hnone, ?_⟩
  intro rest
  rw [hnone]
  rfl

/-- Witness for C10 at a concrete transport-error poll. -/
theorem claim_C10_fetch_failure_witness :
    fetch_job_from_redis transientErrorWorld = none ∧
    drainPhase (fetch_job_from_redis transientErrorWorld :: []) =
      some [Event.polled none] :=
  ⟨(claim_C10_fetch_failure transientErrorWorld
      (Or.inl ⟨"connection timeout", rfl⟩)).2.1,
   (claim_C10_fetch_failure transientErrorWorld
      (Or.inl ⟨"connection timeout", rfl⟩)).2.2 []⟩

/-- Counterexample to C10 as stated: a non-2xx (here 3xx) response is not
converted to `None`; `raise_for_status` only raises for 4xx/5xx, so a final
301 response with a decodable job payload yields that job. -/
theorem claim_C10_counterexample :
    fetch_job_from_redis redirectWorld = some demoJob ∧
    fetch_job_from_redis redirectWorld ≠ none := by
  constructor
  · rfl
  · intro h
    simp [fetch_job_from_redis, redirectWorld] at h

/-! ## Claim theorems: per-job cleanup and failure isolation -/

theorem cleanup_removed_subset : ∀ (tc disk : List JobFile),
    ∀ f ∈ (cleanup_files tc disk).2, f ∈ tc := by
  intro tc
  induction tc with
  | nil => intro disk f hf; simp [cleanup_files] at hf
  | cons g rest ih =>
    intro disk f hf
    rw [cleanup_files] at hf
    by_cases hg : g ∈ disk
    · rw [if_pos hg] at hf
      rcases List.mem_cons.mp hf with h | h
      · rw [h]; exact List.mem_cons_self _ _
      · exact List.mem_cons_of_mem _ (ih _ f h)
    · rw [if_neg hg] at hf
      exact List.mem_cons_of_mem _ (ih _ f hf)

theorem cleanup_removed_count : ∀ (tc disk : List JobFile), tc.Nodup →
    (∀ f ∈ tc, f ∈ disk) → ∀ f ∈ tc, (cleanup_files tc disk).2.count f = 1 := by
  intro tc
  induction tc with
  | nil => intro disk _ _ f hf; simp at hf
  | cons g rest ih =>
    intro disk hnd hsub f hf
    have hg : g ∈ disk := hsub g (List.mem_cons_self _ _)
    rw [cleanup_files, if_pos hg]
    have hndr : rest.Nodup := (List.nodup_cons.mp hnd).2
    have hgnr : g ∉ rest := (List.nodup_cons.mp hnd).1
    have hsubr : ∀ x ∈ rest, x ∈ disk.erase g := by
      intro x hx
      have hxd : x ∈ disk := hsub x (List.mem_cons_of_mem _ hx)
      have hxg : x ≠ g := by
        rintro rfl
        exact hgnr hx
      exact (List.mem_erase_of_ne hxg).mpr hxd
    rcases List.mem_cons.mp hf with h | h
    · subst h
      rw [List.count_cons_self]
      have hz : (cleanup_files rest (disk.erase f)).2.count f = 0 := by
        rw [List.count_eq_zero]
        intro hmem
        exact hgnr (cleanup_removed_subset rest _ f hmem)
      omega
    · have hfg : f ≠ g := by
        rintro rfl
        exact hgnr h
      rw [List.count_cons_of_ne hfg]
      exact ih _ hndr hsubr f h

theorem cleanup_remaining_mem : ∀ (tc disk : List JobFile), disk.Nodup →
    ∀ f : JobFile, f ∈ (cleanup_files tc disk).1 ↔ (f ∈ disk ∧ f ∉ tc) := by
  intro tc
  induction tc with
  | nil => intro disk hnd f; simp [cleanup_files]
  | cons g rest ih =>
    intro disk hnd f
    rw [cleanup_files]
    by_cases hg : g ∈ disk
    · rw [if_pos hg]
      rw [show (((cleanup_files rest (disk.erase g)).1,
          g :: (cleanup_files rest (disk.erase g)).2)).1 =
          (cleanup_files rest (disk.erase g)).1 from rfl]
      rw [ih _ (hnd.erase g)]
      constructor
      · rintro ⟨hfe, hfr⟩
        have hfd : f ∈ disk := List.mem_of_mem_erase hfe
        have hfg : f ≠ g := by
          rintro rfl
          exact hnd.not_mem_erase hfe
        refine ⟨hfd, ?_⟩
        intro hmem
        rcases List.mem_cons.mp hmem with h | h
        · exact hfg h
        · exact hfr h
      · rintro ⟨hfd, hfn⟩
        have hfg : f ≠ g := by
          rintro rfl
          exact hfn (List.mem_cons_self _ _)
        exact ⟨(List.mem_erase_of_ne hfg).mpr hfd,
          fun hr => hfn (List.mem_cons_of_mem _ hr)⟩
    · rw [if_neg hg, ih _ hnd]
      constructor
      · rintro ⟨hfd, hfr⟩
        refine ⟨hfd, ?_⟩
        intro hmem
        rcases List.mem_cons.mp hmem with h | h
        · subst h; exact hg hfd
        · exact hfr h
      · rintro ⟨hfd, hfn⟩
        exact ⟨hfd, fun hr => hfn (List.mem_cons_of_mem _ hr)⟩

/-- The structural facts about one job trace that the cleanup claims rest on:
the recorded cleanup list has no duplicates, records only files that exist,
and never records the encoder output when the encoder failed — while a
partial output of a reached-but-failed encoder does exist on disk. -/
theorem trace_shape (j : JobData) (w : JobWorld) :
    (process_video_job j w).toClean.Nodup ∧
    (process_video_job j w).created.Nodup ∧
    (∀ f ∈ (process_video_job j w).toClean, f ∈ (process_video_job j w).created) ∧
    (encodeFailed w = true → JobFile.output ∉ (process_video_job j w).toClean) ∧
    (reachedEncode w = true → encodeFailed w = true → encodeLeftPartial w = true →
      JobFile.output ∈ (process_video_job j w).created) := by
  obtain ⟨dl, pr, cp, en, fr, sb⟩ := w
  cases dl with
  | failed p ext =>
    cases p <;>
      simp [process_video_job, mkTrace, encodeFailed, encodeLeftPartial, reachedEncode]
  | ok ext =>
    cases pr with
    | raised m =>
      simp [process_video_job, mkTrace, encodeFailed, encodeLeftPartial, reachedEncode]
    | unavailable =>
      simp [process_video_job, mkTrace, encodeFailed, encodeLeftPartial, reachedEncode]
    | ok mw mh dur =>
      by_cases hz : mw = 0 ∨ mh = 0 ∨ dur = 0
      · simp [process_video_job, mkTrace, encodeFailed, encodeLeftPartial,
          reachedEncode, hz]
      · cases cp with
        | raised m =>
          simp [process_video_job, mkTrace, encodeFailed, encodeLeftPartial,
            reachedEncode, hz]
        | ok =>
          cases en with
          | timedOut p =>
            cases p <;>
              simp [process_video_job, mkTrace, encodeFailed, encodeLeftPartial,
                reachedEncode, hz]
          | nonZero rc st p =>
            cases p <;>
              simp [process_video_job, mkTrace, encodeFailed, encodeLeftPartial,
                reachedEncode, hz]
          | ok =>
            cases fr with
            | failed p =>
              cases p <;>
                simp [process_video_job, mkTrace, encodeFailed, encodeLeftPartial,
                  reachedEncode, hz]
            | ok =>
              cases sb <;>
                simp [process_video_job, mkTrace, encodeFailed, encodeLeftPartial,
                  reachedEncode, hz]

/-- C1 (amended): every file recorded in the job's cleanup set is removed
exactly once when the job finishes, success or failure, and whatever remains
on disk was never recorded; but a partial output file created by an encoder
invocation that times out or exits non-zero is not recorded, so it survives
the cleanup. -/
theorem claim_C1_cleanup (j : JobData) (w : JobWorld) :
    (∀ f ∈ (process_video_job j w).toClean,
      (removedFiles (process_video_job j w)).count f = 1) ∧
    (∀ f ∈ leftoverFiles (process_video_job j w),
      f ∉ (process_video_job j w).toClean) ∧
    (encodeFailed w = true →
      JobFile.output ∉ (process_video_job j w).toClean ∧
      (reachedEncode w = true → encodeLeftPartial w = true →
        JobFile.output ∈ leftoverFiles (process_video_job j w))) := by
  have hs := trace_shape j w
  refine ⟨?_, ?_, ?_⟩
  · intro f hf
    exact cleanup_removed_count _ _ hs.1 hs.2.2.1 f hf
  · intro f hf
    exact ((cleanup_remaining_mem _ _ hs.2.1 f).mp hf).2
  · intro henc
    refine ⟨hs.2.2.2.1 henc, ?_⟩
    intro hreach hpart
    have hc : JobFile.output ∈ (process_video_job j w).created :=
      hs.2.2.2.2 hreach henc hpart
    exact (cleanup_remaining_mem _ _ hs.2.1 JobFile.output).mpr
      ⟨hc, hs.2.2.2.1 henc⟩

/-- Counterexample to C1 as stated: with the encoder timing out after
creating a partial output, that file is created but not recorded in the
cleanup set, and it is still on disk after the job's cleanup. -/
theorem claim_C1_counterexample :
    JobFile.output ∈ (process_video_job demoJob encodeTimeoutWorld).created ∧
    JobFile.output ∉ (process_video_job demoJob encodeTimeoutWorld).toClean ∧
    leftoverFiles (process_video_job demoJob encodeTimeoutWorld) =
      [JobFile.output] := by
  refine ⟨by decide, by decide, by decide⟩

/-- Witness for C1 (amended) at the encoder-timeout run. -/
theorem claim_C1_cleanup_witness :
    (removedFiles (process_video_job demoJob encodeTimeoutWorld)).count
      (JobFile.media ".mp4") = 1 ∧
    JobFile.output ∉ (process_video_job demoJob encodeTimeoutWorld).toClean ∧
    JobFile.output ∈ leftoverFiles (process_video_job demoJob encodeTimeoutWorld) := by
  have h := claim_C1_cleanup demoJob encodeTimeoutWorld
  exact ⟨h.1 (JobFile.media ".mp4") (by decide),
    (h.2.2 (by decide)).1,
    (h.2.2 (by decide)).2 (by decide) (by decide)⟩

theorem lastN_length_le (n : ℕ) (s : List Char) : (lastN n s).length ≤ n := by
  simp only [lastN, List.length_drop]
  omega

/-- C2 (amended): every stage failure other than a delivery transport error
is caught at the job-runner boundary, logged with the job id and an error
excerpt of at most 1000 characters, and the job is abandoned; a delivery
transport error is caught inside the delivery helper instead (logged there
without job id or truncation, leaving no boundary log); and no stage failure
terminates the worker loop — the loop polls on regardless of the job's
outcome. -/
theorem claim_C2_failure_isolation (j : JobData) (w : JobWorld) :
    (stageFailedBeforeSubmitReq w = true →
      ∃ snip, (process_video_job j w).boundaryLog = some (j.job_id, snip) ∧
        snip.length ≤ 1000 ∧ (process_video_job j w).delivered = false) ∧
    (stageFailedBeforeSubmitReq w = false → ∀ m, w.submit = .requestError m →
      (process_video_job j w).boundaryLog = none ∧
      (process_video_job j w).submitLog =
        some (("Error uploading result to worker: " ++ m).data) ∧
      (process_video_job j w).delivered = false) ∧
    (stageFailed w = false →
      (process_video_job j w).boundaryLog = none ∧
      (process_video_job j w).delivered = true) ∧
    (∀ rest, drainPhase (some j :: rest) =
      (drainPhase rest).map fun evs =>
        Event.polled (some j) :: Event.processed j :: evs) := by
  obtain ⟨dl, pr, cp, en, fr, sb⟩ := w
  refine ⟨?_, ?_, ?_, fun rest => rfl⟩
  · intro hfail
    cases dl with
    | failed p ext => exact ⟨_, rfl, lastN_length_le _ _, rfl⟩
    | ok ext =>
      cases pr with
      | raised m => exact ⟨_, rfl, lastN_length_le _ _, rfl⟩
      | unavailable => exact ⟨_, rfl, lastN_length_le _ _, rfl⟩
      | ok mw mh dur =>
        by_cases hz : mw = 0 ∨ mh = 0 ∨ dur = 0
        · refine ⟨lastN 1000 (excMessage (.valueError "Could not get media dimensions.")),
            ?_, lastN_length_le _ _, ?_⟩ <;>
            simp [process_video_job, mkTrace, hz]
        · cases cp with
          | raised m =>
            refine ⟨lastN 1000 (excMessage (.other m)), ?_, lastN_length_le _ _, ?_⟩ <;>
              simp [process_video_job, mkTrace, hz]
          | ok =>
            cases en with
            | timedOut p =>
              refine ⟨lastN 1000 (excMessage (.timeoutExpired ENCODE_TIMEOUT_SECONDS)),
                ?_, lastN_length_le _ _, ?_⟩ <;>
                simp [process_video_job, mkTrace, hz]
            | nonZero rc st p =>
              refine ⟨lastN 1000 (excMessage (.calledProcessError rc st)),
                ?_, lastN_length_le _ _, ?_⟩ <;>
                simp [process_video_job, mkTrace, hz]
            | ok =>
              cases fr with
              | failed p =>
                refine ⟨lastN 1000 (excMessage (.valueError "Frame extraction failed.")),
                  ?_, lastN_length_le _ _, ?_⟩ <;>
                  simp [process_video_job, mkTrace, hz]
              | ok =>
                cases sb with
                | ok => simp [stageFailedBeforeSubmitReq, hz] at hfail
                | requestError m => simp [stageFailedBeforeSubmitReq, hz] at hfail
                | raised m =>
                  refine ⟨lastN 1000 (excMessage (.other m)), ?_, lastN_length_le _ _, ?_⟩ <;>
                    simp [process_video_job, mkTrace, hz]
  · intro hok m hm
    cases dl with
    | failed p ext => simp [stageFailedBeforeSubmitReq] at hok
    | ok ext =>
      cases pr with
      | raised m' => simp [stageFailedBeforeSubmitReq] at hok
      | unavailable => simp [stageFailedBeforeSubmitReq] at hok
      | ok mw mh dur =>
        by_cases hz : mw = 0 ∨ mh = 0 ∨ dur = 0
        · simp [stageFailedBeforeSubmitReq, hz] at hok
        · cases cp with
          | raised m' => simp [stageFailedBeforeSubmitReq, hz] at hok
          | ok =>
            cases en with
            | timedOut p => simp [stageFailedBeforeSubmitReq, hz] at hok
            | nonZero rc st p => simp [stageFailedBeforeSubmitReq, hz] at hok
            | ok =>
              cases fr with
              | failed p => simp [stageFailedBeforeSubmitReq, hz] at hok
              | ok =>
                cases sb with
                | ok => exact absurd hm (by simp)
                | raised m' => simp [stageFailedBeforeSubmitReq, hz] at hok
                | requestError m' =>
                  have hmm : m' = m := by
                    injection hm
                  subst hmm
                  refine ⟨?_, ?_, ?_⟩ <;> simp [process_video_job, mkTrace, hz]
  · intro hok
    cases dl with
    | failed p ext => simp [stageFailed] at hok
    | ok ext =>
      cases pr with
      | raised m' => simp [stageFailed] at hok
      | unavailable => simp [stageFailed] at hok
      | ok mw mh dur =>
        by_cases hz : mw = 0 ∨ mh = 0 ∨ dur = 0
        · simp [stageFailed, hz] at hok
        · cases cp with
          | raised m' => simp [stageFailed, hz] at hok
          | ok =>
            cases en with
            | timedOut p => simp [stageFailed, hz] at hok
            | nonZero rc st p => simp [stageFailed, hz] at hok
            | ok =>
              cases fr with
              | failed p => simp [stageFailed, hz] at hok
              | ok =>
                cases sb with
                | requestError m' => simp [stageFailed, hz] at hok
                | raised m' => simp [stageFailed, hz] at hok
                | ok =>
                  refine ⟨?_, ?_⟩ <;> simp [process_video_job, mkTrace, hz]

/-- Counterexample to C2 as stated: a delivery transport failure is a stage
failure, yet it never reaches the job-runner boundary — no boundary log with
the job id is written; the error is logged inside the delivery helper,
untruncated and without the job id. -/
theorem claim_C2_counterexample :
    stageFailed submitErrWorld = true ∧
    (process_video_job demoJob submitErrWorld).boundaryLog = none ∧
    (process_video_job demoJob submitErrWorld).submitLog =
      some (("Error uploading result to worker: " ++ "connection reset").data) := by
  refine ⟨by decide, by decide, by decide⟩

/-- Witness for C2 (amended) at the failed-download run. -/
theorem claim_C2_failure_isolation_witness :
    ∃ snip, (process_video_job demoJob downloadFailWorld).boundaryLog =
      some (demoJob.job_id, snip) ∧ snip.length ≤ 1000 ∧
      (process_video_job demoJob downloadFailWorld).delivered = false :=
  (claim_C2_failure_isolation demoJob downloadFailWorld).1 (by decide)

end Televideditor
